import Mathlib

/-!
Verification of the capture-and-ingest pipeline of `redbug_dewey`
(package `handlers`, file `handlers.go`).

The embedding models:
  * the length-prefixed frame codec (`writeLengthPrefixed`,
    `readBatchFromDisk`, `removeBatchFromDisk`);
  * the FIFO and RED overflow-buffer variants over an explicit
    backing-file state (a list of bytes);
  * one iteration of the ingest loop (`ingestLoop`), with the database
    outcomes (begin / prepare / per-record exec / commit) supplied as an
    oracle;
  * the per-line timing step of the timed source reader (`captureLoop`),
    with Go `float64` timestamps modelled as rationals;
  * the start path of the capture manager (`StartSimulatedCapture`) with
    the two file-open outcomes as oracles;
  * the plain-text body produced by `CaptureStatusHandler`.

File-system I/O on an existing file is modelled as infallible; the byte
content of the backing file is carried explicitly.
-/

namespace RedbugDewey

/-- A byte string (record payload or file content) as a list of naturals. -/
abbrev ByteStr := List Nat

/-- Big-endian 4-byte encoding of a length, as in `writeLengthPrefixed`:
Go truncates `len(data)` to `uint32` and emits the four bytes
`l>>24, l>>16, l>>8, l`, each truncated to a byte. -/
def u32be (l : Nat) : List Nat :=
  let m := l % 2 ^ 32
  [m / 2 ^ 24 % 256, m / 2 ^ 16 % 256, m / 2 ^ 8 % 256, m % 256]

/-- Big-endian decoding of a 4-byte length buffer, as in
`readBatchFromDisk` / `removeBatchFromDisk`:
`(uint32(b0)<<24) | (uint32(b1)<<16) | (uint32(b2)<<8) | uint32(b3)`
(for byte values the bitwise or is addition). -/
def beU32 (b : List Nat) : Nat :=
  b.getD 0 0 * 2 ^ 24 + b.getD 1 0 * 2 ^ 16 + b.getD 2 0 * 2 ^ 8 + b.getD 3 0

/-- One `f.Read(buf)` call with a fresh zeroed buffer of size `k` at the
head of `file`: a read of `k = 0` bytes succeeds without consuming input;
a read at end of file fails (Go returns `io.EOF`); otherwise up to `k`
bytes are consumed and the rest of the buffer keeps its zeroes. Returns
the filled buffer and the unread remainder. -/
def readN (file : List Nat) (k : Nat) : Option (List Nat × List Nat) :=
  if k = 0 then some ([], file)
  else if file.isEmpty then none
  else some (file.take k ++ List.replicate (k - min k file.length) 0, file.drop k)

/-- The read loop of `readBatchFromDisk`: up to `max` frames, stopping at
the first failed read of a length prefix or of a payload. -/
def readFramesAux : Nat → List Nat → List ByteStr
  | 0, _ => []
  | max + 1, file =>
    match readN file 4 with
    | none => []
    | some (lenBuf, rest) =>
      let l := beU32 lenBuf
      match readN rest l with
      | none => []
      | some (buf, rest2) => buf :: readFramesAux max rest2

/-- `readBatchFromDisk(path, max)` over the byte content of the file at
`path`. -/
def readBatchFromDisk (file : List Nat) (max : Nat) : List ByteStr :=
  readFramesAux max file

/-- `writeLengthPrefixed(f, data)`: append a 4-byte big-endian length and
the payload to the file. -/
def writeLengthPrefixed (f : List Nat) (data : List Nat) : List Nat :=
  f ++ u32be data.length ++ data

/-- The skip loop of `removeBatchFromDisk`: starting at read position
`pos` with accumulated head offset `off`, do `n` iterations of: read a
4-byte length prefix (break at end of file), add `4 + l` to the offset,
and seek `l` bytes forward. Returns the final offset. -/
def skipLoopAux (file : List Nat) : Nat → Nat → Nat → Nat
  | 0, _, off => off
  | n + 1, pos, off =>
    if file.length ≤ pos then off
    else
      let t := min 4 (file.length - pos)
      let lenBuf := (file.drop pos).take 4 ++ List.replicate (4 - t) 0
      let l := beU32 lenBuf
      skipLoopAux file n (pos + t + l) (off + 4 + l)

/-- `removeBatchFromDisk(path, n)`: compute the head offset past the
first `n` frames; if it reaches or passes end of file, truncate to
length zero, else keep only the suffix from that offset (the copy to
`path + ".tmp"` followed by the rename). -/
def removeBatchFromDisk (file : List Nat) (n : Nat) : List Nat :=
  let off := skipLoopAux file n 0 0
  if file.length ≤ off then [] else file.drop off

/-- The single frame produced for a record: length prefix then payload. -/
def frame (r : ByteStr) : List Nat := u32be r.length ++ r

/-- A buffer file holding exactly the frames of the records `rs`. -/
def frames (rs : List ByteStr) : List Nat := (rs.map frame).flatten

/-- The largest record length the frame codec encodes faithfully: the
implementation imposes no explicit bound, so the 4-byte `uint32` length
prefix is the only limit. -/
def maxRecord : Nat := 2 ^ 32 - 1

/-! ### Basic codec lemmas -/

theorem u32be_length (l : Nat) : (u32be l).length = 4 := rfl

theorem beU32_u32be {l : Nat} (h : l < 2 ^ 32) : beU32 (u32be l) = l := by
  simp only [u32be, beU32, List.getD, List.get?, Option.getD]
  omega

theorem readN_append (pre rest : List Nat) :
    readN (pre ++ rest) pre.length = some (pre, rest) := by
  unfold readN
  rcases pre with _ | ⟨b, bs⟩
  · simp
  · have hlen : (b :: bs).length ≠ 0 := by simp
    have hle : (b :: bs).length ≤ ((b :: bs) ++ rest).length := by
      simp
    simp only [hlen, if_false]
    have hne : (((b :: bs) ++ rest).isEmpty) = false := by
      simp
    simp only [hne, if_false]
    rw [List.take_left, List.drop_left]
    have hmin : min (b :: bs).length ((b :: bs) ++ rest).length
        = (b :: bs).length := Nat.min_eq_left hle
    rw [hmin]
    simp

theorem frames_nil : frames [] = [] := rfl

theorem frames_cons (r : ByteStr) (rs : List ByteStr) :
    frames (r :: rs) = frame r ++ frames rs := by
  simp [frames]

theorem frames_append (a b : List ByteStr) :
    frames (a ++ b) = frames a ++ frames b := by
  simp [frames]

theorem frame_length (r : ByteStr) : (frame r).length = 4 + r.length := by
  simp [frame, u32be]
  omega

/-- Appending records one by one with `writeLengthPrefixed` builds the
frame concatenation. -/
theorem foldl_writeLengthPrefixed (rs : List ByteStr) :
    ∀ acc : List Nat, List.foldl writeLengthPrefixed acc rs = acc ++ frames rs := by
  induction rs with
  | nil => intro acc; simp [frames]
  | cons r rs ih =>
    intro acc
    rw [List.foldl_cons, ih, frames_cons]
    simp [writeLengthPrefixed, frame]

/-- Reading frames from a well-formed frame file recovers the records,
given enough fuel. -/
theorem readFramesAux_frames (rs : List ByteStr) :
    ∀ max : Nat, rs.length ≤ max → (∀ r ∈ rs, r.length < 2 ^ 32) →
      readFramesAux max (frames rs) = rs := by
  induction rs with
  | nil =>
    intro max _ _
    cases max with
    | zero => rfl
    | succ m =>
      simp [readFramesAux, frames, readN]
  | cons r rs ih =>
    intro max hm hwf
    cases max with
    | zero => exact absurd hm (by simp)
    | succ m =>
      have hr : r.length < 2 ^ 32 := hwf r (by simp)
      have h1 : readN (frames (r :: rs)) 4 = some (u32be r.length, r ++ frames rs) := by
        have := readN_append (u32be r.length) (r ++ frames rs)
        rw [u32be_length] at this
        rw [frames_cons, frame, List.append_assoc]
        exact this
      have h2 : readN (r ++ frames rs) (beU32 (u32be r.length)) = some (r, frames rs) := by
        rw [beU32_u32be hr]
        exact readN_append r (frames rs)
      simp only [readFramesAux, h1, h2]
      have hm' : rs.length ≤ m := by
        simpa using Nat.succ_le_succ_iff.mp (by simpa using hm)
      rw [ih m hm' (fun x hx => hwf x (by simp [hx]))]

/-- The skip loop of `removeBatchFromDisk`, run on a file that is some
prefix `pre` followed by the frames of `rs` starting at read position
`pre.length`, accumulates exactly the byte length of the first `k`
frames. -/
theorem skipLoopAux_frames :
    ∀ (k : Nat) (rs : List ByteStr) (pre : List Nat) (off : Nat),
      (∀ r ∈ rs, r.length < 2 ^ 32) →
      skipLoopAux (pre ++ frames rs) k pre.length off
        = off + (frames (rs.take k)).length := by
  intro k
  induction k with
  | zero => intro rs pre off _; simp [skipLoopAux, frames]
  | succ k ih =>
    intro rs pre off hwf
    cases rs with
    | nil =>
      simp [skipLoopAux, frames]
    | cons r rs =>
      have hr : r.length < 2 ^ 32 := hwf r (by simp)
      have hlen : (pre ++ frames (r :: rs)).length
          = pre.length + (4 + r.length) + (frames rs).length := by
        simp [frames_cons, frame_length]
        omega
      have hpos : ¬ (pre ++ frames (r :: rs)).length ≤ pre.length := by
        rw [hlen]; omega
      have hsub : (pre ++ frames (r :: rs)).length - pre.length
          = 4 + r.length + (frames rs).length := by
        rw [hlen]; omega
      have ht : min 4 ((pre ++ frames (r :: rs)).length - pre.length) = 4 := by
        rw [hsub]; omega
      have hdrop : (pre ++ frames (r :: rs)).drop pre.length = frames (r :: rs) :=
        List.drop_left pre (frames (r :: rs))
      have htake : (frames (r :: rs)).take 4 = u32be r.length := by
        rw [frames_cons, frame, List.append_assoc]
        have : (u32be r.length ++ (r ++ frames rs)).take (u32be r.length).length
            = u32be r.length := List.take_left _ _
        rwa [u32be_length] at this
      have hbuf : ((pre ++ frames (r :: rs)).drop pre.length).take 4
          ++ List.replicate (4 - min 4 ((pre ++ frames (r :: rs)).length - pre.length)) 0
          = u32be r.length := by
        rw [hdrop, htake, ht]
        simp
      rw [skipLoopAux]
      simp only [hpos, if_false]
      rw [hbuf, beU32_u32be hr]
      have hstep : pre.length + min 4 ((pre ++ frames (r :: rs)).length - pre.length)
          + r.length = (pre ++ u32be r.length ++ r).length := by
        rw [ht]
        simp [u32be]
        omega
      have hfile : pre ++ frames (r :: rs) = (pre ++ u32be r.length ++ r) ++ frames rs := by
        rw [frames_cons, frame]
        simp [List.append_assoc]
      rw [hstep, hfile, ih rs (pre ++ u32be r.length ++ r) (off + 4 + r.length)
        (fun x hx => hwf x (by simp [hx]))]
      rw [List.take_succ_cons, frames_cons, List.length_append, frame_length]
      omega

/-- Head offset computed by the skip loop from the start of a pure frame
file. -/
theorem skipLoopAux_frames_zero (k : Nat) (rs : List ByteStr)
    (hwf : ∀ r ∈ rs, r.length < 2 ^ 32) :
    skipLoopAux (frames rs) k 0 0 = (frames (rs.take k)).length := by
  have := skipLoopAux_frames k rs [] 0 hwf
  simpa using this

/-- Behaviour of `removeBatchFromDisk` on a well-formed frame file, for
every requested count `k` (also past the frame count): the result is the
frame file of the records with the first `k` dropped. -/
theorem removeBatchFromDisk_frames (rs : List ByteStr) (k : Nat)
    (hwf : ∀ r ∈ rs, r.length < 2 ^ 32) :
    removeBatchFromDisk (frames rs) k = frames (rs.drop k) := by
  have hoff := skipLoopAux_frames_zero k rs hwf
  have hsplit : frames rs = frames (rs.take k) ++ frames (rs.drop k) := by
    rw [← frames_append, List.take_append_drop]
  simp only [removeBatchFromDisk, hoff]
  by_cases hd : rs.drop k = []
  · rw [hd, frames_nil]
    have hle : (frames rs).length ≤ (frames (rs.take k)).length := by
      rw [hsplit, hd, frames_nil]
      simp
    simp [hle]
  · have hpos : 0 < (frames (rs.drop k)).length := by
      rcases hdrop : rs.drop k with _ | ⟨r, rest⟩
      · exact absurd hdrop hd
      · rw [frames_cons, List.length_append, frame_length]
        omega
    have hlt : ¬ (frames rs).length ≤ (frames (rs.take k)).length := by
      rw [hsplit, List.length_append]
      omega
    simp only [hlt, if_false]
    rw [hsplit]
    exact List.drop_left _ _

/-! ### The overflow buffer variants

`FIFOBuffer` operations over the byte content of the backing file.
`Append` delegates to `writeLengthPrefixed`; its only error channel in
the source is a failure of the underlying file write, which the
embedding treats as infallible. `Len` reads up to `1000000` frames and
counts them. `Close` releases the file handle. -/

def fifoAppend (file data : List Nat) : Except String (List Nat) :=
  Except.ok (writeLengthPrefixed file data)

def fifoReadBatch (file : List Nat) (max : Nat) : List ByteStr :=
  readBatchFromDisk file max

def fifoRemoveBatch (file : List Nat) (n : Nat) : List Nat :=
  removeBatchFromDisk file n

def fifoLen (file : List Nat) : Nat :=
  (readBatchFromDisk file 1000000).length

def fifoSizeBytes (file : List Nat) : Nat := file.length

def fifoClose : Except String Unit := Except.ok ()

/-- `REDBuffer` operations: the shipped implementation holds a
`FIFOBuffer` and forwards every operation to it (the RED drop logic is a
TODO in the source). -/

def redAppend (file data : List Nat) : Except String (List Nat) :=
  fifoAppend file data

def redReadBatch (file : List Nat) (max : Nat) : List ByteStr :=
  fifoReadBatch file max

def redRemoveBatch (file : List Nat) (n : Nat) : List Nat :=
  fifoRemoveBatch file n

def redLen (file : List Nat) : Nat := fifoLen file

def redSizeBytes (file : List Nat) : Nat := fifoSizeBytes file

def redClose : Except String Unit := fifoClose

/-! ### Claim theorems for the codec and the buffer variants -/

/-- C5: appending byte-strings `r_1 … r_m`, each of length at most the
max-record bound, to an empty file with the frame codec and then reading
with `max ≥ m` yields exactly `r_1 … r_m` in order, bytewise-equal. -/
theorem frame_roundtrip (rs : List ByteStr) (max : Nat)
    (hlen : ∀ r ∈ rs, r.length ≤ maxRecord) (hmax : rs.length ≤ max) :
    readBatchFromDisk (List.foldl writeLengthPrefixed [] rs) max = rs := by
  have hwf : ∀ r ∈ rs, r.length < 2 ^ 32 := by
    intro r hr
    have := hlen r hr
    simp only [maxRecord] at this
    omega
  rw [foldl_writeLengthPrefixed, List.nil_append]
  exact readFramesAux_frames rs max hmax hwf

/-- Witness for C5 at a concrete two-record sequence. -/
theorem frame_roundtrip_witness :
    (∀ r ∈ [[1, 2], [3]], List.length r ≤ maxRecord) ∧
    List.length [[1, 2], [3]] ≤ 2 ∧
    readBatchFromDisk (List.foldl writeLengthPrefixed [] [[1, 2], [3]]) 2
      = [[1, 2], [3]] :=
  ⟨by decide, by decide, frame_roundtrip [[1, 2], [3]] 2 (by decide) (by decide)⟩

/-- C4: for a buffer file of well-formed frames and `k` at most the
frame count, `remove-batch(k)` leaves the file frame-for-frame identical
to the original with its first `k` frames deleted; for `k` equal to the
frame count the file is truncated to length zero. -/
theorem removeBatch_head_only (rs : List ByteStr) (k : Nat)
    (hk : k ≤ rs.length) (hwf : ∀ r ∈ rs, r.length ≤ maxRecord) :
    removeBatchFromDisk (frames rs) k = frames (rs.drop k) ∧
    (k = rs.length → removeBatchFromDisk (frames rs) k = []) := by
  have hwf' : ∀ r ∈ rs, r.length < 2 ^ 32 := by
    intro r hr
    have := hwf r hr
    simp only [maxRecord] at this
    omega
  refine ⟨removeBatchFromDisk_frames rs k hwf', fun hEq => ?_⟩
  rw [removeBatchFromDisk_frames rs k hwf', hEq, List.drop_length, frames_nil]

/-- Witness for C4 at a concrete three-frame file with `k = 2`. -/
theorem removeBatch_head_only_witness :
    2 ≤ List.length [[1], [2, 2], [3]] ∧
    (∀ r ∈ [[1], [2, 2], [3]], List.length r ≤ maxRecord) ∧
    removeBatchFromDisk (frames [[1], [2, 2], [3]]) 2 = frames [[3]] :=
  ⟨by decide, by decide,
    (removeBatch_head_only [[1], [2, 2], [3]] 2 (by decide) (by decide)).1⟩

/-- C10: requesting removal of more frames than the file holds does not
fail: the skip loop stops at end of file, the computed offset reaches
the file size, and the file is truncated to length zero. -/
theorem removeBatch_overshoot (rs : List ByteStr) (n : Nat)
    (hn : rs.length < n) (hwf : ∀ r ∈ rs, r.length ≤ maxRecord) :
    removeBatchFromDisk (frames rs) n = [] := by
  have hwf' : ∀ r ∈ rs, r.length < 2 ^ 32 := by
    intro r hr
    have := hwf r hr
    simp only [maxRecord] at this
    omega
  rw [removeBatchFromDisk_frames rs n hwf']
  rw [List.drop_eq_nil_of_le (Nat.le_of_lt hn), frames_nil]

/-- Witness for C10: removing 5 frames from a 2-frame file empties it. -/
theorem removeBatch_overshoot_witness :
    List.length [[1], [2]] < 5 ∧
    (∀ r ∈ [[1], [2]], List.length r ≤ maxRecord) ∧
    removeBatchFromDisk (frames [[1], [2]]) 5 = [] :=
  ⟨by decide, by decide, removeBatch_overshoot [[1], [2]] 5 (by decide) (by decide)⟩

/-- C9: every operation of the shipped RED variant coincides with the
FIFO variant over the same backing file — the RED implementation is
exactly a delegation to FIFO, with no thresholds or drops. -/
theorem red_delegates_to_fifo (file data : List Nat) (max n : Nat) :
    redAppend file data = fifoAppend file data ∧
    redReadBatch file max = fifoReadBatch file max ∧
    redRemoveBatch file n = fifoRemoveBatch file n ∧
    redLen file = fifoLen file ∧
    redSizeBytes file = fifoSizeBytes file ∧
    redClose = fifoClose :=
  ⟨rfl, rfl, rfl, rfl, rfl, rfl⟩

/-- C7 counterexample: a record strictly longer than the max-record
bound is nevertheless accepted by `Append` — the source has no size
check and no typed rejection error, refuting the claimed rejection. -/
theorem append_oversize_accepted :
    maxRecord < (List.replicate (2 ^ 32) 0).length ∧
    (fifoAppend [] (List.replicate (2 ^ 32) 0)).isOk = true :=
  ⟨by simp only [List.length_replicate, maxRecord]; omega, rfl⟩

/-- C7 amended: `Append` never rejects a record — every record is
written to the backing file as a length-prefixed frame (the prefix
stores the length mod 2^32); a record whose length is at most
`maxRecord = 2^32 − 1` is written as a well-formed frame that reads back
intact. -/
theorem append_never_rejects (file data : List Nat) :
    fifoAppend file data = Except.ok (writeLengthPrefixed file data) ∧
    (data.length ≤ maxRecord →
      readBatchFromDisk (writeLengthPrefixed [] data) 1 = [data]) := by
  refine ⟨rfl, fun h => ?_⟩
  have hframe : writeLengthPrefixed [] data = frames [data] := by
    simp [writeLengthPrefixed, frames, frame]
  rw [hframe]
  refine readFramesAux_frames [data] 1 (by simp) ?_
  intro r hr
  simp only [List.mem_singleton] at hr
  subst hr
  simp only [maxRecord] at h
  omega

/-- Witness for C7's amended theorem at a concrete record. -/
theorem append_never_rejects_witness :
    List.length [42] ≤ maxRecord ∧
    readBatchFromDisk (writeLengthPrefixed [] [42]) 1 = [[42]] :=
  ⟨by decide, (append_never_rejects [] [42]).2 (by decide)⟩

/-! ### The timed source reader (`captureLoop`)

Per-line timing state and step. Go `float64` timestamps are modelled as
rationals; the outcome of the leading-timestamp parse for a line is
supplied as `Option ℚ` (`none` when no prefix up to the first blank
parses as a float). The first component of the step result is the sleep
duration in seconds. -/

structure CaptureTimeState where
  lastTimestamp : ℚ
  first : Bool
  deriving DecidableEq

/-- One iteration of the timing logic of `captureLoop` for a scanned
line: on a parsed timestamp, the first one only seeds `lastTimestamp`;
afterwards the loop sleeps `delta = ts − lastTimestamp` seconds exactly
when `0 < delta ∧ delta < 10`, and always records `ts` as the new
`lastTimestamp`. An unparsed line changes nothing and sleeps nothing. -/
def captureStep (st : CaptureTimeState) (tsParse : Option ℚ) : ℚ × CaptureTimeState :=
  match tsParse with
  | none => (0, st)
  | some ts =>
    if st.first then
      (0, ⟨ts, false⟩)
    else
      let delta := ts - st.lastTimestamp
      (if 0 < delta ∧ delta < 10 then delta else 0, ⟨ts, false⟩)

/-- C1 counterexample: consecutive parsed timestamps 0 and 10 give a
strictly positive delta of 10 s, for which the claim demands a wait of
`min(10 s, 10 s) = 10 s`, but the code's guard `delta < 10` fails and
the wait is 0. -/
theorem captureWait_cap_counterexample :
    (0 : ℚ) < 10 - 0 ∧
    (captureStep ⟨0, false⟩ (some 10)).1 = 0 ∧
    min ((10 : ℚ) - 0) 10 ≠ 0 := by
  refine ⟨by norm_num, ?_, by norm_num⟩
  simp [captureStep]

/-- C1 amended: between two consecutively parsed timestamps the reader
waits `delta = t − t_prev` exactly when `0 < delta < 10 s`; it waits
nothing when the delta is non-positive, when the delta is 10 s or more
(the cap drops the wait entirely rather than clamping it to 10 s), and
when the timestamp is unparseable; a parsed timestamp always becomes the
new reference. -/
theorem captureWait_amended (tPrev t : ℚ) :
    (0 < t - tPrev → t - tPrev < 10 →
      (captureStep ⟨tPrev, false⟩ (some t)).1 = t - tPrev) ∧
    (t - tPrev ≤ 0 ∨ 10 ≤ t - tPrev →
      (captureStep ⟨tPrev, false⟩ (some t)).1 = 0) ∧
    (captureStep ⟨tPrev, false⟩ none).1 = 0 ∧
    (captureStep ⟨tPrev, false⟩ (some t)).2 = ⟨t, false⟩ := by
  have heq : (captureStep ⟨tPrev, false⟩ (some t)).1
      = if 0 < t - tPrev ∧ t - tPrev < 10 then t - tPrev else 0 := rfl
  refine ⟨fun h1 h2 => ?_, fun h => ?_, rfl, rfl⟩
  · rw [heq, if_pos ⟨h1, h2⟩]
  · have hnot : ¬ (0 < t - tPrev ∧ t - tPrev < 10) := by
      rcases h with h | h
      · exact fun hc => absurd hc.1 (not_lt.mpr h)
      · exact fun hc => absurd hc.2 (not_lt.mpr h)
    rw [heq, if_neg hnot]

/-- Witness for C1's amended theorem at concrete timestamps 0 and 1. -/
theorem captureWait_amended_witness :
    (0 : ℚ) < 1 - 0 ∧ (1 : ℚ) - 0 < 10 ∧
    (captureStep ⟨0, false⟩ (some 1)).1 = 1 - 0 :=
  ⟨by norm_num, by norm_num,
    (captureWait_amended 0 1).1 (by norm_num) (by norm_num)⟩

/-! ### The capture status page (`CaptureStatusHandler`) -/

/-- The status snapshot exported by the manager, with the render-only
fields (`LastUpdated` in RFC3339) carried as strings and the rate as a
rational. Field order follows the Go struct. -/
structure CaptureStatus where
  bufferLen : Nat
  diskBufferBytes : Nat
  ingesting : Bool
  stopped : Bool
  lastError : String
  ingested : Nat
  lastUpdated : String
  ingestRateEPS : ℚ
  errorCount : Nat
  deriving DecidableEq

/-- The key/value lines written by `CaptureStatusHandler`, one pair per
verb of its format string, in order. -/
def captureStatusBody (s : CaptureStatus) : List (String × String) :=
  [("BufferLen", toString s.bufferLen),
   ("Ingesting", toString s.ingesting),
   ("Stopped", toString s.stopped),
   ("Ingested", toString s.ingested),
   ("LastError", s.lastError),
   ("LastUpdated", s.lastUpdated),
   ("IngestRateEPS", toString s.ingestRateEPS),
   ("ErrorCount", toString s.errorCount)]

/-- C8 counterexample: for a concrete status, the response body has no
`DiskBufferBytes` line — the handler's format string omits that field
even though `GetCaptureStatus` fills it. -/
theorem status_body_missing_diskBufferBytes :
    "DiskBufferBytes" ∉
      (captureStatusBody ⟨0, 7, false, false, "", 0, "1970-01-01T00:00:00Z", 0, 0⟩).map
        Prod.fst := by
  decide

/-- C8 amended: for every status, the response body consists of exactly
one key/value line for each of `BufferLen`, `Ingesting`, `Stopped`,
`Ingested`, `LastError`, `LastUpdated`, `IngestRateEPS` and
`ErrorCount`, in that order; `DiskBufferBytes` is not rendered. -/
theorem status_body_keys (s : CaptureStatus) :
    (captureStatusBody s).map Prod.fst =
      ["BufferLen", "Ingesting", "Stopped", "Ingested", "LastError",
       "LastUpdated", "IngestRateEPS", "ErrorCount"] := rfl

/-! ### The capture manager start path (`StartSimulatedCapture`) -/

/-- Manager state relevant to the start path: the `ingesting` and
`stopped` flags and which resources (source file handle, buffer
implementation) are currently held. -/
structure ManagerState where
  ingesting : Bool
  stopped : Bool
  fileOpen : Bool
  bufferOpen : Bool
  deriving DecidableEq

/-- The idle manager: fresh, nothing running, nothing held. -/
def idleManager : ManagerState := ⟨false, false, false, false⟩

/-- `StartSimulatedCapture` with the two fallible opens as oracles: if
already ingesting, reject; if the source open fails, return the error
with the state untouched; otherwise the source is held, `stopped` is
cleared and `ingesting` is set, and then the buffer is opened — on
buffer-open failure the source file is closed and the error returned,
with `ingesting` left set. Returns the error (if any) and the new
state. -/
def startSimulatedCapture (cm : ManagerState) (openLogOk openBufOk : Bool) :
    Option String × ManagerState :=
  if cm.ingesting then (some "capture already running", cm)
  else if openLogOk = false then (some "open log failed", cm)
  else if openBufOk = false then
    (some "open buffer failed",
      { ingesting := true, stopped := false, fileOpen := false, bufferOpen := false })
  else
    (none, { ingesting := true, stopped := false, fileOpen := true, bufferOpen := true })

/-- C6 (code bug evidence): starting from idle with the source open
succeeding and the buffer open failing, the error is returned and the
partially acquired source handle is released, but `ingesting` remains
set, so a subsequent start is rejected as already running — the state
does not remain Idle as the claim requires. The source-open failure
path, by contrast, does leave the state untouched. -/
theorem start_buffer_failure_not_idle :
    (startSimulatedCapture idleManager true false).1 = some "open buffer failed" ∧
    (startSimulatedCapture idleManager true false).2.ingesting = true ∧
    (startSimulatedCapture idleManager true false).2.fileOpen = false ∧
    (startSimulatedCapture idleManager true false).2.bufferOpen = false ∧
    (startSimulatedCapture (startSimulatedCapture idleManager true false).2 true true).1
      = some "capture already running" ∧
    (startSimulatedCapture idleManager false true).2 = idleManager := by
  decide

/-! ### The ingest loop (`ingestLoop`)

One iteration of the loop body, with the database outcomes supplied as
an oracle. The disk buffer is present (`bufferImpl != nil`), the store
handle is set, and the manager is not stopped; the iteration reads up to
256 frames, runs one transaction over the batch, and only on a
successful commit removes the batch and updates the counters. -/

/-- The status fields the iteration touches. -/
structure StatusCounters where
  ingested : Nat
  errorCount : Nat
  lastError : String
  deriving DecidableEq

/-- Oracle for the database outcomes of one iteration: whether `Begin`,
`Prepare` and `Commit` succeed (with the error text recorded on
failure), and the per-record outcome of each `Exec` by batch index
(records beyond the list succeed). -/
structure DBOracle where
  beginOk : Bool
  beginMsg : String
  prepareOk : Bool
  prepareMsg : String
  execOk : List Bool
  commitOk : Bool
  commitMsg : String
  deriving DecidableEq

/-- Result of one iteration: the new status counters, the new buffer
file content, the `RemoveBatch` call made (if any), and whether the
transaction committed. -/
structure IterResult where
  status : StatusCounters
  file : List Nat
  removeCall : Option Nat
  committed : Bool
  deriving DecidableEq

/-- Number of batch indices whose `Exec` succeeds. -/
def execSuccesses (db : DBOracle) (m : Nat) : Nat :=
  ((List.range m).filter (fun i => db.execOk.getD i true)).length

/-- Number of batch indices whose `Exec` fails. -/
def execFailures (db : DBOracle) (m : Nat) : Nat :=
  ((List.range m).filter (fun i => !(db.execOk.getD i true))).length

/-- One iteration of `ingestLoop` past the stop check: read a batch of
up to 256 frames; an empty batch just idles. Otherwise `Begin`; on
failure record the error and continue. `Prepare`; on failure roll back,
record the error and continue. Execute the insert once per record,
counting successes and failures. `Commit`; on failure record the error
and continue — counters untouched. Only then call
`RemoveBatch(len(batch))` and add the per-record successes and failures
to the counters, overwriting the last error when any record failed. -/
def ingestIteration (file : List Nat) (st : StatusCounters) (db : DBOracle) :
    IterResult :=
  let batch := readBatchFromDisk file 256
  if batch.isEmpty then ⟨st, file, none, false⟩
  else if db.beginOk = false then
    ⟨{ st with lastError := db.beginMsg }, file, none, false⟩
  else if db.prepareOk = false then
    ⟨{ st with lastError := db.prepareMsg }, file, none, false⟩
  else if db.commitOk = false then
    ⟨{ st with lastError := db.commitMsg }, file, none, false⟩
  else
    let errs := execFailures db batch.length
    ⟨{ ingested := st.ingested + execSuccesses db batch.length,
       errorCount := st.errorCount + errs,
       lastError := if 0 < errs then toString errs ++ " ingestion errors"
                    else st.lastError },
     removeBatchFromDisk file batch.length,
     some batch.length, true⟩

/-- C2: the `Ingested` counter grows only through an iteration whose
transaction committed; whenever `Begin`, `Prepare` or `Commit` fails,
the counter is unchanged for that iteration. -/
theorem ingested_only_after_commit (file : List Nat) (st : StatusCounters)
    (db : DBOracle) :
    ((db.beginOk = false ∨ db.prepareOk = false ∨ db.commitOk = false) →
      (ingestIteration file st db).status.ingested = st.ingested) ∧
    (st.ingested < (ingestIteration file st db).status.ingested →
      (ingestIteration file st db).committed = true) := by
  unfold ingestIteration
  constructor
  · intro h
    by_cases h1 : (readBatchFromDisk file 256).isEmpty <;>
      by_cases h2 : db.beginOk = false <;>
        by_cases h3 : db.prepareOk = false <;>
          by_cases h4 : db.commitOk = false <;>
            simp_all
  · intro h
    by_cases h1 : (readBatchFromDisk file 256).isEmpty <;>
      by_cases h2 : db.beginOk = false <;>
        by_cases h3 : db.prepareOk = false <;>
          by_cases h4 : db.commitOk = false <;>
            simp_all

/-- Witness for C2 at a concrete one-frame file and a failing commit. -/
theorem ingested_only_after_commit_witness :
    (ingestIteration (frames [[65]]) ⟨3, 0, ""⟩
        ⟨true, "b", true, "p", [], false, "commit failed"⟩).status.ingested = 3 :=
  (ingested_only_after_commit (frames [[65]]) ⟨3, 0, ""⟩
      ⟨true, "b", true, "p", [], false, "commit failed"⟩).1
    (Or.inr (Or.inr rfl))

/-- C3: on a non-empty batch, a `Begin` failure or a `Commit` failure
leaves the buffer file untouched (no `RemoveBatch` call), records the
error text as the last error, and makes the next read return the same
batch; conversely a `RemoveBatch` call happens only in a committed
iteration and always removes exactly the length of the batch just
read. -/
theorem failed_commit_keeps_batch (file : List Nat) (st : StatusCounters)
    (db : DBOracle) :
    (readBatchFromDisk file 256 ≠ [] → db.beginOk = false →
      (ingestIteration file st db).removeCall = none ∧
      (ingestIteration file st db).status.lastError = db.beginMsg ∧
      (ingestIteration file st db).file = file) ∧
    (readBatchFromDisk file 256 ≠ [] → db.beginOk = true → db.prepareOk = true →
      db.commitOk = false →
      (ingestIteration file st db).removeCall = none ∧
      (ingestIteration file st db).status.lastError = db.commitMsg ∧
      (ingestIteration file st db).file = file) ∧
    (∀ n, (ingestIteration file st db).removeCall = some n →
      (ingestIteration file st db).committed = true ∧
      n = (readBatchFromDisk file 256).length) ∧
    ((ingestIteration file st db).removeCall = none →
      readBatchFromDisk (ingestIteration file st db).file 256
        = readBatchFromDisk file 256) := by
  unfold ingestIteration
  refine ⟨fun hne hb => ?_, fun hne hb hp hc => ?_, fun n hn => ?_, fun hnone => ?_⟩
  · have h1 : ((readBatchFromDisk file 256).isEmpty) = false := by
      simpa [List.isEmpty_iff] using hne
    simp [h1, hb]
  · have h1 : ((readBatchFromDisk file 256).isEmpty) = false := by
      simpa [List.isEmpty_iff] using hne
    simp [h1, hb, hp, hc]
  · by_cases h1 : (readBatchFromDisk file 256).isEmpty <;>
      by_cases h2 : db.beginOk = false <;>
        by_cases h3 : db.prepareOk = false <;>
          by_cases h4 : db.commitOk = false <;>
            simp_all
  · by_cases h1 : (readBatchFromDisk file 256).isEmpty <;>
      by_cases h2 : db.beginOk = false <;>
        by_cases h3 : db.prepareOk = false <;>
          by_cases h4 : db.commitOk = false <;>
            simp_all

/-- Witness for C3 at a concrete one-frame file and a failing begin. -/
theorem failed_commit_keeps_batch_witness :
    readBatchFromDisk (frames [[65]]) 256 ≠ [] ∧
    (ingestIteration (frames [[65]]) ⟨0, 0, ""⟩
        ⟨false, "begin failed", true, "p", [], true, "c"⟩).removeCall = none ∧
    (ingestIteration (frames [[65]]) ⟨0, 0, ""⟩
        ⟨false, "begin failed", true, "p", [], true, "c"⟩).status.lastError
      = "begin failed" :=
  ⟨by decide,
    ((failed_commit_keeps_batch (frames [[65]]) ⟨0, 0, ""⟩
        ⟨false, "begin failed", true, "p", [], true, "c"⟩).1 (by decide) rfl).1,
    ((failed_commit_keeps_batch (frames [[65]]) ⟨0, 0, ""⟩
        ⟨false, "begin failed", true, "p", [], true, "c"⟩).1 (by decide) rfl).2.1⟩

end RedbugDewey
